import Mathlib

/-!
Verification of the Quickfund micro-lending backend.

The Python `Decimal` values are modelled as exact rationals (`ℚ`); wherever the
source rounds to two decimal places (`round(x, 2)`, `quantize(Decimal('0.01'))`,
both of which use banker's rounding, the default `Decimal` rounding mode), the
model applies `round2`, a half-to-even rounding to cents.
-/

namespace Quickfund

/-- Half-to-even (banker's) rounding of a rational to the nearest integer,
the rounding used by Python `Decimal` quantisation. -/
def bankersRound (x : ℚ) : ℤ :=
  if x - Int.floor x < 1/2 then Int.floor x
  else if 1/2 < x - Int.floor x then Int.floor x + 1
  else if Int.floor x % 2 = 0 then Int.floor x else Int.floor x + 1

/-- Rounding to two decimal places, as `round(x, 2)` on a Python `Decimal`. -/
def round2 (x : ℚ) : ℚ := (bankersRound (100 * x) : ℚ) / 100

lemma abs_bankersRound_sub (x : ℚ) : |(bankersRound x : ℚ) - x| ≤ 1/2 := by
  have h1 : (Int.floor x : ℚ) ≤ x := Int.floor_le x
  have h2 : x < Int.floor x + 1 := Int.lt_floor_add_one x
  unfold bankersRound
  split_ifs with ha hb hc <;> push_cast <;> rw [abs_le] <;> constructor <;> linarith

lemma abs_round2_sub (x : ℚ) : |round2 x - x| ≤ 1/200 := by
  have h := abs_bankersRound_sub (100 * x)
  have hrw : round2 x - x = ((bankersRound (100 * x) : ℚ) - 100 * x) / 100 := by
    unfold round2; ring
  rw [hrw, abs_div, show |(100:ℚ)| = 100 by norm_num,
    div_le_iff₀ (by norm_num : (0:ℚ) < 100)]
  linarith

lemma bankersRound_nonpos {x : ℚ} (hx : x ≤ 0) : bankersRound x ≤ 0 := by
  have h1 : (Int.floor x : ℚ) ≤ x := Int.floor_le x
  have hf : Int.floor x ≤ 0 := by
    have := Int.floor_le_floor (α := ℚ) hx
    simpa using this
  unfold bankersRound
  split_ifs with ha hb hc
  · exact hf
  · have hq : ((2 * Int.floor x : ℤ) : ℚ) < -1 := by push_cast; linarith
    have hz : (2 * Int.floor x : ℤ) < -1 := by exact_mod_cast hq
    omega
  · exact hf
  · have hx2 : x - Int.floor x = 1/2 := le_antisymm (not_lt.mp hb) (not_lt.mp ha)
    have hq : ((2 * Int.floor x : ℤ) : ℚ) ≤ -1 := by push_cast; linarith
    have hz : (2 * Int.floor x : ℤ) ≤ -1 := by exact_mod_cast hq
    omega

lemma round2_nonpos {x : ℚ} (hx : x ≤ 0) : round2 x ≤ 0 := by
  have hb : ((bankersRound (100 * x) : ℤ) : ℚ) ≤ 0 := by
    exact_mod_cast bankersRound_nonpos (by linarith : 100 * x ≤ 0)
  unfold round2
  linarith

lemma round2_zero : round2 0 = 0 := by
  unfold round2 bankersRound
  norm_num

/-! ## LoanCalculator (`loans/utils.py`)

`calculate_monthly_payment` and `generate_amortization_schedule`, with
`Decimal` arithmetic modelled over `ℚ` and the two-decimal roundings of the
source mapped to `round2`.
-/

/-- One row of the amortization schedule (the dict appended per month). -/
structure ScheduleRow where
  month : ℕ
  payment : ℚ
  principal : ℚ
  interest : ℚ
  balance : ℚ
deriving Repr, DecidableEq

/-- `LoanCalculator.calculate_monthly_payment`: zero-rate loans pay
`principal / term_months`; otherwise the standard annuity formula, rounded to
two decimals. -/
def calculateMonthlyPayment (principal annualRate : ℚ) (termMonths : ℕ) : ℚ :=
  if annualRate = 0 then principal / termMonths
  else
    let monthlyRate := annualRate / 12
    round2 (principal * (monthlyRate * (1 + monthlyRate) ^ termMonths) /
      ((1 + monthlyRate) ^ termMonths - 1))

/-- Loop body of `generate_amortization_schedule`: `month` is the 1-based month
counter and `k + 1` the number of months still to emit, so the final month is
the call with `k = 0`, where a positive residual balance is folded into the
principal component. -/
def amortAux (M i : ℚ) : ℕ → ℕ → ℚ → List ScheduleRow
  | _, 0, _ => []
  | month, k + 1, rb =>
    let interest := rb * i
    let principalPayment := M - interest
    let rb1 := rb - principalPayment
    if k = 0 ∧ 0 < rb1 then
      ⟨month, M, round2 (principalPayment + rb1), round2 interest,
        max (round2 0) 0⟩ :: amortAux M i (month + 1) k 0
    else
      ⟨month, M, round2 principalPayment, round2 interest,
        max (round2 rb1) 0⟩ :: amortAux M i (month + 1) k rb1

/-- `LoanCalculator.generate_amortization_schedule`. -/
def generateAmortizationSchedule (principal annualRate : ℚ) (termMonths : ℕ) :
    List ScheduleRow :=
  amortAux (calculateMonthlyPayment principal annualRate termMonths)
    (annualRate / 12) 1 termMonths principal

/-- The internal (unrounded) remaining balance after the loop of
`generate_amortization_schedule` has run, following exactly the updates of
`amortAux` (zero after a fold of a positive final residual). -/
def finalRb (M i : ℚ) : ℕ → ℚ → ℚ
  | 0, rb => rb
  | k + 1, rb =>
    let rb1 := rb - (M - rb * i)
    if k = 0 ∧ 0 < rb1 then finalRb M i k 0 else finalRb M i k rb1

lemma amortAux_succ (M i : ℚ) (month k : ℕ) (rb : ℚ) :
    amortAux M i month (k + 1) rb =
      if k = 0 ∧ 0 < rb - (M - rb * i) then
        ⟨month, M, round2 ((M - rb * i) + (rb - (M - rb * i))), round2 (rb * i),
          max (round2 0) 0⟩ :: amortAux M i (month + 1) k 0
      else
        ⟨month, M, round2 (M - rb * i), round2 (rb * i),
          max (round2 (rb - (M - rb * i))) 0⟩ ::
            amortAux M i (month + 1) k (rb - (M - rb * i)) := rfl

lemma finalRb_succ (M i : ℚ) (k : ℕ) (rb : ℚ) :
    finalRb M i (k + 1) rb =
      if k = 0 ∧ 0 < rb - (M - rb * i) then finalRb M i k 0
      else finalRb M i k (rb - (M - rb * i)) := rfl

lemma amortAux_length (M i : ℚ) :
    ∀ (k month : ℕ) (rb : ℚ), (amortAux M i month k rb).length = k := by
  intro k
  induction k with
  | zero => intro month rb; rfl
  | succ k ih =>
    intro month rb
    simp only [amortAux]
    split_ifs <;> simp [ih]

lemma amortAux_getLast_balance (M i : ℚ) :
    ∀ (k month : ℕ) (rb : ℚ), 1 ≤ k →
      ((amortAux M i month k rb).map ScheduleRow.balance).getLast? = some 0 := by
  intro k
  induction k with
  | zero => intro month rb h; omega
  | succ k ih =>
    intro month rb _
    by_cases hk : k = 0
    · subst hk
      simp only [amortAux]
      split_ifs with h
      · simp [round2_zero]
      · have hrb1 : rb - (M - rb * i) ≤ 0 := by
          by_contra hc
          exact h ⟨by trivial, lt_of_not_le hc⟩
        simp [amortAux, max_eq_right (round2_nonpos hrb1)]
    · have hcond : ¬(k = 0 ∧ 0 < rb - (M - rb * i)) := fun h => hk h.1
      obtain ⟨x, xs, htail⟩ :
          ∃ x xs, amortAux M i (month + 1) k (rb - (M - rb * i)) = x :: xs := by
        cases h : amortAux M i (month + 1) k (rb - (M - rb * i)) with
        | nil =>
          have := amortAux_length M i k (month + 1) (rb - (M - rb * i))
          rw [h] at this
          simp at this
          omega
        | cons x xs => exact ⟨x, xs, rfl⟩
      have htl := ih (month + 1) (rb - (M - rb * i)) (by omega)
      simp only [amortAux, if_neg hcond]
      rw [htail] at htl ⊢
      simpa using htl

lemma amortAux_sum_principal (M i : ℚ) :
    ∀ (k month : ℕ) (rb : ℚ),
      |((amortAux M i month k rb).map ScheduleRow.principal).sum -
        (rb - finalRb M i k rb)| ≤ (k : ℚ) / 200 := by
  intro k
  induction k with
  | zero => intro month rb; simp [amortAux, finalRb]
  | succ k ih =>
    intro month rb
    by_cases hcond : k = 0 ∧ 0 < rb - (M - rb * i)
    · obtain ⟨hk, hpos⟩ := hcond
      subst hk
      rw [amortAux_succ, finalRb_succ, if_pos ⟨rfl, hpos⟩, if_pos ⟨rfl, hpos⟩]
      show |(List.map ScheduleRow.principal (_ :: amortAux M i (month + 1) 0 0)).sum -
        (rb - finalRb M i 0 0)| ≤ _
      simp only [amortAux, finalRb, List.map_cons, List.map_nil, List.sum_cons,
        List.sum_nil, add_zero]
      have hrw : M - rb * i + (rb - (M - rb * i)) = rb := by ring
      rw [hrw]
      have h1 := abs_round2_sub rb
      calc |round2 rb - (rb - 0)| = |round2 rb - rb| := by ring_nf
        _ ≤ 1 / 200 := h1
        _ ≤ (((0 : ℕ) + 1 : ℕ) : ℚ) / 200 := by norm_num
    · rw [amortAux_succ, finalRb_succ, if_neg hcond, if_neg hcond]
      simp only [List.map_cons, List.sum_cons]
      set rb1 := rb - (M - rb * i) with hrb1
      have h1 := ih (month + 1) rb1
      have h2 := abs_round2_sub (M - rb * i)
      set S := ((amortAux M i (month + 1) k rb1).map ScheduleRow.principal).sum
      set F := finalRb M i k rb1
      have hrw : round2 (M - rb * i) + S - (rb - F) =
          (round2 (M - rb * i) - (M - rb * i)) + (S - (rb1 - F)) := by
        rw [hrb1]; ring
      rw [hrw]
      calc |round2 (M - rb * i) - (M - rb * i) + (S - (rb1 - F))|
          ≤ |round2 (M - rb * i) - (M - rb * i)| + |S - (rb1 - F)| := abs_add _ _
        _ ≤ 1 / 200 + (k : ℚ) / 200 := add_le_add h2 h1
        _ = ((k : ℕ) + 1 : ℚ) / 200 := by ring
        _ = (((k : ℕ) + 1 : ℕ) : ℚ) / 200 := by push_cast; ring

lemma finalRb_nonpos (M i : ℚ) :
    ∀ (k : ℕ) (rb : ℚ), 1 ≤ k → finalRb M i k rb ≤ 0 := by
  intro k
  induction k with
  | zero => intro rb h; omega
  | succ k ih =>
    intro rb _
    by_cases hk : k = 0
    · subst hk
      simp only [finalRb]
      split_ifs with h
      · simp [finalRb]
      · have : rb - (M - rb * i) ≤ 0 := by
          by_contra hc
          exact h ⟨by trivial, lt_of_not_le hc⟩
        simpa [finalRb] using this
    · have hcond : ¬(k = 0 ∧ 0 < rb - (M - rb * i)) := fun h => hk h.1
      simp only [finalRb, if_neg hcond]
      exact ih _ (by omega)

/-- C1 (counterexample): at principal 1000, rate 0, term 7 the schedule does
have 7 rows and a final balance of exactly 0.00, but the principal components
(each independently rounded to cents) sum to 1000.02, which differs from the
principal by two cents, so the claimed one-cent bound on the principal sum
fails. -/
theorem amortization_principal_sum_two_cents_off :
    (generateAmortizationSchedule 1000 0 7).length = 7 ∧
    ((generateAmortizationSchedule 1000 0 7).map ScheduleRow.balance).getLast? = some 0 ∧
    ((generateAmortizationSchedule 1000 0 7).map ScheduleRow.principal).sum = 100002 / 100 ∧
    ¬ |((generateAmortizationSchedule 1000 0 7).map ScheduleRow.principal).sum -
        1000| ≤ 1 / 100 := by
  norm_num [generateAmortizationSchedule, calculateMonthlyPayment, amortAux,
    round2, bankersRound]
  rw [abs_of_pos] <;> norm_num

/-- C1 (amended): for every principal P > 0, annual rate r ≥ 0 and term
n ≥ 1, the amortization schedule has exactly n rows and its final row's
balance is exactly 0.00; the internal residual balance left by the loop is
never positive, and the sum of the (per-row cent-rounded) principal components
equals P minus that residual to within half a cent per row (n/200) — the
original one-cent bound does not hold. -/
theorem amortization_schedule_rows_balance_and_principal_sum (P r : ℚ) (n : ℕ)
    (_hP : 0 < P) (_hr : 0 ≤ r) (hn : 1 ≤ n) :
    (generateAmortizationSchedule P r n).length = n ∧
    ((generateAmortizationSchedule P r n).map ScheduleRow.balance).getLast? = some 0 ∧
    finalRb (calculateMonthlyPayment P r n) (r / 12) n P ≤ 0 ∧
    |((generateAmortizationSchedule P r n).map ScheduleRow.principal).sum -
      (P - finalRb (calculateMonthlyPayment P r n) (r / 12) n P)| ≤ (n : ℚ) / 200 :=
  ⟨amortAux_length _ _ n 1 P, amortAux_getLast_balance _ _ n 1 P hn,
    finalRb_nonpos _ _ n P hn, amortAux_sum_principal _ _ n 1 P⟩

/-- Witness for C1's amended theorem at principal 1200, rate 0, term 3. -/
theorem amortization_schedule_rows_balance_and_principal_sum_witness :
    (generateAmortizationSchedule 1200 0 3).length = 3 ∧
    ((generateAmortizationSchedule 1200 0 3).map ScheduleRow.balance).getLast? = some 0 ∧
    finalRb (calculateMonthlyPayment 1200 0 3) ((0 : ℚ) / 12) 3 1200 ≤ 0 ∧
    |((generateAmortizationSchedule 1200 0 3).map ScheduleRow.principal).sum -
      (1200 - finalRb (calculateMonthlyPayment 1200 0 3) ((0 : ℚ) / 12) 3 1200)| ≤
        ((3 : ℕ) : ℚ) / 200 :=
  amortization_schedule_rows_balance_and_principal_sum 1200 0 3 (by norm_num)
    (by norm_num) (by norm_num)

/-! ## LoanStatusManager (`loans/utils.py`)

The `STATUS_TRANSITIONS` dict and `can_transition`; Python's
`dict.get(current_status, [])` becomes a chain of key comparisons with `[]`
as the default, and `new_status in ...` is list membership.
-/

/-- The `VALID_STATUSES` list of `LoanStatusManager`. -/
def validStatuses : List String :=
  ["pending", "under_review", "approved", "rejected", "active", "completed",
    "defaulted", "cancelled"]

/-- `LoanStatusManager.STATUS_TRANSITIONS.get(current_status, [])`. -/
def statusTransitions (currentStatus : String) : List String :=
  if currentStatus = "pending" then ["under_review", "cancelled"]
  else if currentStatus = "under_review" then ["approved", "rejected"]
  else if currentStatus = "approved" then ["active", "cancelled"]
  else if currentStatus = "rejected" then []
  else if currentStatus = "active" then ["completed", "defaulted"]
  else if currentStatus = "completed" then []
  else if currentStatus = "defaulted" then []
  else if currentStatus = "cancelled" then []
  else []

/-- `LoanStatusManager.can_transition`. -/
def canTransition (currentStatus newStatus : String) : Bool :=
  decide (newStatus ∈ statusTransitions currentStatus)

/-- The transition relation exactly as C8 words it: the claimed canonical
lifecycle through `disbursed` and `overdue`, with `rejected` reachable from
`pending` or `under_review` and `cancelled` from `pending` or `approved`. -/
def claimedCanTransition (s t : String) : Bool :=
  decide ((s, t) ∈ ([("pending", "under_review"), ("under_review", "approved"),
    ("approved", "disbursed"), ("disbursed", "active"), ("active", "completed"),
    ("active", "overdue"), ("overdue", "defaulted"), ("pending", "rejected"),
    ("under_review", "rejected"), ("pending", "cancelled"),
    ("approved", "cancelled")] : List (String × String)))

/-- C8 (counterexample): the claim permits `pending to rejected` and
`approved to disbursed`, but `can_transition` refuses both (the code has no
`disbursed` or `overdue` status at all, and `pending` may only move to
`under_review` or `cancelled`). -/
theorem status_transition_table_differs_from_claim :
    claimedCanTransition "pending" "rejected" = true ∧
    canTransition "pending" "rejected" = false ∧
    claimedCanTransition "approved" "disbursed" = true ∧
    canTransition "approved" "disbursed" = false := by
  decide

/-- C8 (amended): a transition is permitted exactly per the code's table:
pending to under_review or cancelled; under_review to approved or rejected;
approved to active or cancelled; active to completed or defaulted; rejected,
completed, defaulted and cancelled (and every unknown status) admit no
outgoing transitions. -/
theorem status_transition_table (s t : String) :
    canTransition s t = true ↔
      ((s = "pending" ∧ (t = "under_review" ∨ t = "cancelled")) ∨
       (s = "under_review" ∧ (t = "approved" ∨ t = "rejected")) ∨
       (s = "approved" ∧ (t = "active" ∨ t = "cancelled")) ∨
       (s = "active" ∧ (t = "completed" ∨ t = "defaulted"))) := by
  have hpu : ("pending" : String) ≠ "under_review" := by decide
  have hpa : ("pending" : String) ≠ "approved" := by decide
  have hpc : ("pending" : String) ≠ "active" := by decide
  have hua : ("under_review" : String) ≠ "approved" := by decide
  have huc : ("under_review" : String) ≠ "active" := by decide
  have hac : ("approved" : String) ≠ "active" := by decide
  simp only [canTransition, decide_eq_true_eq]
  unfold statusTransitions
  split_ifs with h1 h2 h3 h4 h5 h6 h7 h8 <;>
    simp_all [List.mem_cons, List.not_mem_nil]

/-! ## CreditScoringService.get_loan_decision (`loans/services.py`) -/

/-- `CreditScoringService.get_loan_decision`: maps a credit score to a
decision string and an approval fraction of the requested amount. -/
def getLoanDecision (creditScore : ℤ) : String × ℚ :=
  if 650 ≤ creditScore then ("approved", 1)
  else if 550 ≤ creditScore then ("approved", 7/10)
  else if 450 ≤ creditScore then ("approved", 1/2)
  else ("rejected", 0)

/-- C5: the decision mapping is exactly the claimed four bands, and in
particular 700, 600, 500 and 400 map to approved at 1.0, approved at 0.7,
approved at 0.5 and rejected at 0.0 respectively. -/
theorem loan_decision_bands (s : ℤ) :
    (650 ≤ s → getLoanDecision s = ("approved", 1)) ∧
    (550 ≤ s → s < 650 → getLoanDecision s = ("approved", 7/10)) ∧
    (450 ≤ s → s < 550 → getLoanDecision s = ("approved", 1/2)) ∧
    (s < 450 → getLoanDecision s = ("rejected", 0)) ∧
    getLoanDecision 700 = ("approved", 1) ∧
    getLoanDecision 600 = ("approved", 7/10) ∧
    getLoanDecision 500 = ("approved", 1/2) ∧
    getLoanDecision 400 = ("rejected", 0) := by
  refine ⟨?_, ?_, ?_, ?_, ?_, ?_, ?_, ?_⟩ <;>
    · intros; unfold getLoanDecision; split_ifs <;> first | rfl | omega

/-- Witness for C5: the middle band discharged at score 600. -/
theorem loan_decision_bands_witness :
    getLoanDecision 600 = ("approved", 7/10) :=
  (loan_decision_bands 600).2.1 (by norm_num) (by norm_num)

/-! ## CustomUser (`users/models.py`)

`can_apply_for_loan` and `update_credit_score`, over the user's stored flags,
credit score and the statuses of the user's loans. The `Loan` rows referenced
by both methods carry the lowercase status values of
`Loan.STATUS_CHOICES` (`loans/models.py`).
-/

/-- The canonical status values of `Loan.STATUS_CHOICES` in
`loans/models.py`. -/
def loanStatusChoices : List String :=
  ["pending", "approved", "rejected", "disbursed", "active", "completed",
    "defaulted"]

/-- Default of the `credit_score` field of `CustomUser`
(`models.IntegerField(default=0)`). -/
def defaultCreditScore : ℤ := 0

/-- `CustomUser.can_apply_for_loan`, as a function of the KYC flag, the
profile-completeness flag, the persisted credit score and the statuses of the
user's loans; the active-loan filter compares against the literal uppercase
strings of the source. -/
def canApplyForLoan (kycVerified isProfileComplete : Bool) (creditScore : ℤ)
    (loanStatuses : List String) : Bool × String :=
  if !kycVerified then (false, "KYC verification required")
  else if !isProfileComplete then (false, "Profile completion required")
  else if creditScore < 400 then (false, "Credit score too low")
  else
    let activeLoans :=
      (loanStatuses.filter
        (fun s => decide (s ∈ ["PENDING", "APPROVED", "DISBURSED"]))).length
    if activeLoans > 0 then (false, "You have an active loan application or loan")
    else (true, "Eligible for loan application")

/-- `CustomUser.update_credit_score`: the score written back by the
maintenance routine, from the user's loan statuses, lifetime borrowed/repaid
amounts and monthly income (`none` when unset; a zero income is falsy in the
source and skips the income bonus). -/
def updateCreditScore (loanStatuses : List String)
    (totalAmountBorrowed totalAmountRepaid : ℚ) (monthlyIncome : Option ℚ) : ℤ :=
  if loanStatuses = [] then 500
  else
    let baseScore : ℤ := 500
    let completedLoans := (loanStatuses.filter (fun s => s = "COMPLETED")).length
    let score1 := baseScore + completedLoans * 50
    let defaultedLoans := (loanStatuses.filter (fun s => s = "DEFAULTED")).length
    let score2 := score1 - defaultedLoans * 100
    let score3 :=
      if 0 < totalAmountBorrowed then
        let repaymentRate := totalAmountRepaid / totalAmountBorrowed * 100
        if 95 ≤ repaymentRate then score2 + 100
        else if 80 ≤ repaymentRate then score2 + 50
        else if repaymentRate < 50 then score2 - 150
        else score2
      else score2
    let score4 :=
      match monthlyIncome with
      | none => score3
      | some income =>
        if income = 0 then score3
        else if 100000 ≤ income then score3 + 50
        else if 50000 ≤ income then score3 + 25
        else score3
    max 300 (min 850 score4)

/-- C4: a fully verified user with credit score 700 who already holds a loan
in the canonical non-terminal status `pending` is still reported eligible,
because the active-loan filter compares the stored lowercase statuses against
the uppercase literals `PENDING`, `APPROVED` and `DISBURSED`, which match no
canonical status value; the claim (and the reason string of the code itself)
requires such a user to be ineligible. -/
theorem can_apply_for_loan_ignores_existing_loan :
    canApplyForLoan true true 700 ["pending"] = (true, "Eligible for loan application") ∧
    "pending" ∈ loanStatusChoices ∧
    "pending" ∉ ["rejected", "completed", "defaulted", "cancelled"] ∧
    (∀ s ∈ loanStatusChoices, s ∉ ["PENDING", "APPROVED", "DISBURSED"]) ∧
    canApplyForLoan false true 700 [] = (false, "KYC verification required") := by
  decide

/-- C6 (counterexample): the persisted `credit_score` field of a freshly
created user defaults to 0, not to the claimed 500. -/
theorem default_credit_score_is_zero : defaultCreditScore = 0 ∧ defaultCreditScore ≠ 500 := by
  decide

/-- C6 (amended): the persisted default credit score is 0; the maintenance
routine `update_credit_score` assigns 500 to a user with no loan history, and
every recomputed score lies in the interval from 300 to 850. -/
theorem update_credit_score_bounds (loanStatuses : List String)
    (totalAmountBorrowed totalAmountRepaid : ℚ) (monthlyIncome : Option ℚ) :
    defaultCreditScore = 0 ∧
    300 ≤ updateCreditScore loanStatuses totalAmountBorrowed totalAmountRepaid
      monthlyIncome ∧
    updateCreditScore loanStatuses totalAmountBorrowed totalAmountRepaid
      monthlyIncome ≤ 850 ∧
    (loanStatuses = [] →
      updateCreditScore loanStatuses totalAmountBorrowed totalAmountRepaid
        monthlyIncome = 500) := by
  refine ⟨rfl, ?_, ?_, ?_⟩
  · unfold updateCreditScore
    split_ifs <;> norm_num
  · unfold updateCreditScore
    split_ifs <;> norm_num
  · intro h
    unfold updateCreditScore
    rw [if_pos h]

/-- Witness for C6's amended theorem on a user with no loans. -/
theorem update_credit_score_bounds_witness :
    defaultCreditScore = 0 ∧
    300 ≤ updateCreditScore [] 0 0 none ∧
    updateCreditScore [] 0 0 none ≤ 850 ∧
    updateCreditScore [] 0 0 none = 500 :=
  ⟨(update_credit_score_bounds [] 0 0 none).1,
    (update_credit_score_bounds [] 0 0 none).2.1,
    (update_credit_score_bounds [] 0 0 none).2.2.1,
    (update_credit_score_bounds [] 0 0 none).2.2.2 rfl⟩

/-! ## Loan.save (`loans/models.py`)

Pre-save computation of `monthly_payment`, `total_amount` and the seeding of
`outstanding_balance`. Python truthiness of the guarding `if` makes a zero
principal, zero rate or zero term skip the payment computation (the previous
field values survive), and `if not self.outstanding_balance` treats both
`None` and `0` as unset. The `quantize(Decimal('0.01'))` is `round2`. -/

/-- The money fields of a `Loan` row after `Loan.save`. -/
structure LoanRecord where
  monthlyPayment : Option ℚ
  totalAmount : Option ℚ
  outstandingBalance : ℚ
deriving DecidableEq, Repr

/-- `Loan.save` (loan-id generation aside): computes the payment fields and
seeds the outstanding balance. -/
def loanSave (principalAmount interestRate : ℚ) (termMonths : ℕ)
    (monthlyPayment0 totalAmount0 : Option ℚ) (outstandingBalance0 : Option ℚ) :
    LoanRecord :=
  let computed : Option ℚ × Option ℚ :=
    if principalAmount ≠ 0 ∧ interestRate ≠ 0 ∧ termMonths ≠ 0 then
      let monthlyRate := interestRate / 100 / 12
      if 0 < monthlyRate then
        let payment := round2 (principalAmount * monthlyRate *
          (1 + monthlyRate) ^ termMonths / ((1 + monthlyRate) ^ termMonths - 1))
        (some payment, some (payment * termMonths))
      else
        (some (principalAmount / termMonths), some principalAmount)
    else (monthlyPayment0, totalAmount0)
  let outstanding :=
    match outstandingBalance0 with
    | none => principalAmount
    | some b => if b = 0 then principalAmount else b
  ⟨computed.1, computed.2, outstanding⟩

/-- C7 (counterexample): saving a fresh loan with principal 1200, annual rate
12 percent and term 12 computes monthly payment 106.62 and total 1279.44, yet
seeds `outstanding_balance` with the bare principal 1200 — not the computed
total repayment — and the monthly payment is not balance divided by term
(1200 / 12 = 100). -/
theorem loan_save_seeds_principal_not_total :
    (loanSave 1200 12 12 none none none).outstandingBalance = 1200 ∧
    (loanSave 1200 12 12 none none none).monthlyPayment = some (10662 / 100) ∧
    (loanSave 1200 12 12 none none none).totalAmount = some (127944 / 100) ∧
    some (loanSave 1200 12 12 none none none).outstandingBalance ≠
      (loanSave 1200 12 12 none none none).totalAmount ∧
    (loanSave 1200 12 12 none none none).monthlyPayment ≠
      some ((loanSave 1200 12 12 none none none).outstandingBalance / 12) := by
  norm_num [loanSave, round2, bankersRound]

/-- C7 (amended): a Loan first persisted with its balance unset (or zero) has
`outstanding_balance` seeded with the principal amount alone, never the
interest-inclusive total; when principal, rate and term are nonzero and the
monthly rate is positive the monthly payment is the quantized annuity payment
with `total_amount` equal to monthly payment times term; and for a zero rate
the computation block is skipped entirely, leaving the payment fields
untouched. -/
theorem loan_save_balance_seeding (P r : ℚ) (n : ℕ) (mp0 ta0 : Option ℚ) :
    (loanSave P r n mp0 ta0 none).outstandingBalance = P ∧
    (loanSave P r n mp0 ta0 (some 0)).outstandingBalance = P ∧
    (P ≠ 0 → r ≠ 0 → n ≠ 0 → 0 < r / 100 / 12 →
      ∃ m, (loanSave P r n mp0 ta0 none).monthlyPayment = some m ∧
        (loanSave P r n mp0 ta0 none).totalAmount = some (m * n)) ∧
    (r = 0 → (loanSave P r n mp0 ta0 none).monthlyPayment = mp0 ∧
      (loanSave P r n mp0 ta0 none).totalAmount = ta0) := by
  refine ⟨?_, ?_, ?_, ?_⟩
  · simp [loanSave]
  · simp [loanSave]
  · intro hP hr hn hrate
    have hr0 : 0 < r := by linarith
    refine ⟨round2 (P * (r / 100 / 12) * (1 + r / 100 / 12) ^ n /
      ((1 + r / 100 / 12) ^ n - 1)), ?_, ?_⟩ <;>
      simp [loanSave, if_pos (⟨hP, hr, hn⟩ : P ≠ 0 ∧ r ≠ 0 ∧ n ≠ 0), hr0]
  · intro hr
    subst hr
    simp [loanSave]

/-- Witness for C7's amended theorem at principal 1200, rate 12, term 12. -/
theorem loan_save_balance_seeding_witness :
    (loanSave 1200 12 12 none none none).outstandingBalance = 1200 ∧
    ∃ m, (loanSave 1200 12 12 none none none).monthlyPayment = some m ∧
      (loanSave 1200 12 12 none none none).totalAmount = some (m * 12) :=
  ⟨(loan_save_balance_seeding 1200 12 12 none none).1,
    (loan_save_balance_seeding 1200 12 12 none none).2.2.1 (by norm_num)
      (by norm_num) (by norm_num) (by norm_num)⟩

/-! ## PaymentMethod.save (`payments/models.py`)

The table of payment methods is a list of rows keyed by `pk`; `save` first
clears the default flag on every other method of the same user when the saved
method is default (the `filter(...).exclude(pk=self.pk).update(is_default=False)`),
then upserts the row (update when the pk exists, insert otherwise).
-/

/-- A `PaymentMethod` row restricted to the fields the invariant concerns. -/
structure PaymentMethodRec where
  pk : ℕ
  user : ℕ
  isDefault : Bool
deriving DecidableEq, Repr

/-- The `update(is_default=False)` on the user's other default methods. -/
def clearOtherDefaults (db : List PaymentMethodRec) (p : PaymentMethodRec) :
    List PaymentMethodRec :=
  db.map fun q =>
    if q.user = p.user ∧ q.isDefault = true ∧ q.pk ≠ p.pk then
      { q with isDefault := false }
    else q

/-- `PaymentMethod.save`: conditional clearing of other defaults followed by
the ORM upsert of the saved row. -/
def savePaymentMethod (db : List PaymentMethodRec) (p : PaymentMethodRec) :
    List PaymentMethodRec :=
  let db1 := if p.isDefault then clearOtherDefaults db p else db
  if db1.any fun q => decide (q.pk = p.pk) then
    db1.map fun q => if q.pk = p.pk then p else q
  else db1 ++ [p]

/-- Number of default payment methods of user `u` in the table. -/
def countDefaults : List PaymentMethodRec → ℕ → ℕ
  | [], _ => 0
  | q :: t, u => (if q.user = u ∧ q.isDefault = true then 1 else 0) + countDefaults t u

/-- Number of rows with primary key `x` in the table. -/
def countPk : List PaymentMethodRec → ℕ → ℕ
  | [], _ => 0
  | q :: t, x => (if q.pk = x then 1 else 0) + countPk t x

lemma countDefaults_clear_le (p : PaymentMethodRec) :
    ∀ (db : List PaymentMethodRec) (u : ℕ),
      countDefaults (clearOtherDefaults db p) u ≤ countDefaults db u := by
  intro db
  induction db with
  | nil => intro u; simp [clearOtherDefaults, countDefaults]
  | cons q t ih =>
    intro u
    have hih := ih u
    simp only [clearOtherDefaults, List.map_cons, countDefaults] at hih ⊢
    by_cases h : q.user = p.user ∧ q.isDefault = true ∧ ¬q.pk = p.pk
    · simp only [if_pos h]
      have hz : (if ({ q with isDefault := false } : PaymentMethodRec).user = u ∧
          ({ q with isDefault := false } : PaymentMethodRec).isDefault = true
        then 1 else 0) = 0 := by simp
      rw [hz]
      omega
    · simp only [if_neg h]
      omega

lemma clear_default_pk (p : PaymentMethodRec) :
    ∀ db : List PaymentMethodRec, ∀ q ∈ clearOtherDefaults db p,
      q.user = p.user → q.isDefault = true → q.pk = p.pk := by
  intro db
  induction db with
  | nil => intro q hq; simp [clearOtherDefaults] at hq
  | cons r t ih =>
    intro q hq hu hd
    simp only [clearOtherDefaults, List.map_cons, List.mem_cons] at hq
    rcases hq with hq | hq
    · subst hq
      split_ifs at hu hd ⊢ with h
      all_goals simp_all
    · exact ih q hq hu hd

lemma countPk_clear (p : PaymentMethodRec) :
    ∀ (db : List PaymentMethodRec) (x : ℕ),
      countPk (clearOtherDefaults db p) x = countPk db x := by
  intro db
  induction db with
  | nil => intro x; rfl
  | cons q t ih =>
    intro x
    simp only [clearOtherDefaults, List.map_cons, countPk] at *
    split_ifs <;> simp_all

lemma countDefaults_append (db1 db2 : List PaymentMethodRec) (u : ℕ) :
    countDefaults (db1 ++ db2) u = countDefaults db1 u + countDefaults db2 u := by
  induction db1 with
  | nil => simp [countDefaults]
  | cons q t ih =>
    simp only [List.cons_append, countDefaults, List.append_eq]
    rw [ih]
    omega

lemma countPk_append (db1 db2 : List PaymentMethodRec) (x : ℕ) :
    countPk (db1 ++ db2) x = countPk db1 x + countPk db2 x := by
  induction db1 with
  | nil => simp [countPk]
  | cons q t ih =>
    simp only [List.cons_append, countPk, List.append_eq]
    rw [ih]
    omega

lemma countDefaults_replace_le (p : PaymentMethodRec) :
    ∀ (db : List PaymentMethodRec) (u : ℕ),
      (∀ q ∈ db, q.user = u → q.isDefault = true → q.pk = p.pk) →
      countDefaults (db.map fun q => if q.pk = p.pk then p else q) u ≤
        countPk db p.pk := by
  intro db
  induction db with
  | nil => intro u _; simp [countDefaults, countPk]
  | cons q t ih =>
    intro u hmem
    have hrec := ih u (fun r hr => hmem r (List.mem_cons_of_mem q hr))
    simp only [List.map_cons, countDefaults, countPk]
    by_cases hpk : q.pk = p.pk
    · simp only [if_pos hpk]
      have hind : (if p.user = u ∧ p.isDefault = true then 1 else 0) ≤ 1 := by
        split_ifs <;> omega
      omega
    · simp only [if_neg hpk]
      have hzero : (if q.user = u ∧ q.isDefault = true then 1 else 0) = 0 := by
        split_ifs with h
        · exact absurd (hmem q (List.mem_cons_self q t) h.1 h.2) hpk
        · rfl
      omega

lemma countDefaults_replace_other (p : PaymentMethodRec) {u : ℕ}
    (hp : ¬(p.user = u ∧ p.isDefault = true)) :
    ∀ db : List PaymentMethodRec,
      countDefaults (db.map fun q => if q.pk = p.pk then p else q) u ≤
        countDefaults db u := by
  intro db
  induction db with
  | nil => simp [countDefaults]
  | cons q t ih =>
    simp only [List.map_cons, countDefaults]
    by_cases hpk : q.pk = p.pk
    · simp only [if_pos hpk, if_neg hp]
      omega
    · simp only [if_neg hpk]
      omega

lemma countPk_replace (p : PaymentMethodRec) :
    ∀ (db : List PaymentMethodRec) (x : ℕ),
      countPk (db.map fun q => if q.pk = p.pk then p else q) x = countPk db x := by
  intro db
  induction db with
  | nil => intro x; rfl
  | cons q t ih =>
    intro x
    simp only [List.map_cons, countPk, ih]
    by_cases hpk : q.pk = p.pk
    · simp only [if_pos hpk]
      rw [hpk]
    · simp only [if_neg hpk]

lemma countPk_zero_of_not_any (p : PaymentMethodRec) :
    ∀ db : List PaymentMethodRec,
      (db.any fun q => decide (q.pk = p.pk)) = false → countPk db p.pk = 0 := by
  intro db
  induction db with
  | nil => intro _; rfl
  | cons q t ih =>
    intro h
    simp only [List.any_cons, Bool.or_eq_false_iff, decide_eq_false_iff_not] at h
    simp only [countPk, if_neg h.1, ih (by simpa using h.2)]

lemma countDefaults_zero (p : PaymentMethodRec) :
    ∀ db : List PaymentMethodRec,
      (∀ q ∈ db, q.user = p.user → q.isDefault = true → q.pk = p.pk) →
      countPk db p.pk = 0 → countDefaults db p.user = 0 := by
  intro db
  induction db with
  | nil => intro _ _; rfl
  | cons q t ih =>
    intro hmem hpk
    simp only [countPk] at hpk
    have hq : q.pk ≠ p.pk := by
      intro hc
      rw [if_pos hc] at hpk
      omega
    have ht : countPk t p.pk = 0 := by
      rw [if_neg hq] at hpk
      omega
    simp only [countDefaults]
    have hzero : (if q.user = p.user ∧ q.isDefault = true then 1 else 0) = 0 := by
      split_ifs with h
      · exact absurd (hmem q (List.mem_cons_self q t) h.1 h.2) hq
      · rfl
    rw [hzero, ih (fun r hr => hmem r (List.mem_cons_of_mem q hr)) ht]

/-- The state invariant: at most one default method per user and at most one
row per primary key. -/
def pmInvariant (db : List PaymentMethodRec) : Prop :=
  (∀ u, countDefaults db u ≤ 1) ∧ (∀ x, countPk db x ≤ 1)

lemma upsert_invariant (p : PaymentMethodRec) (db1 : List PaymentMethodRec)
    (hdef1 : ∀ u, countDefaults db1 u ≤ 1)
    (hpk1 : ∀ x, countPk db1 x ≤ 1)
    (hprop : p.isDefault = true →
      ∀ q ∈ db1, q.user = p.user → q.isDefault = true → q.pk = p.pk) :
    pmInvariant (if db1.any fun q => decide (q.pk = p.pk) then
      db1.map fun q => if q.pk = p.pk then p else q
    else db1 ++ [p]) := by
  by_cases hany : (db1.any fun q => decide (q.pk = p.pk)) = true
  · rw [if_pos hany]
    constructor
    · intro u
      by_cases hp : p.user = u ∧ p.isDefault = true
      · obtain ⟨hu, hd⟩ := hp
        subst hu
        exact le_trans (countDefaults_replace_le p db1 p.user (hprop hd)) (hpk1 _)
      · exact le_trans (countDefaults_replace_other p hp db1) (hdef1 u)
    · intro x
      rw [countPk_replace]
      exact hpk1 x
  · rw [if_neg hany]
    have hz : countPk db1 p.pk = 0 := by
      apply countPk_zero_of_not_any
      revert hany
      cases db1.any fun q => decide (q.pk = p.pk) <;> simp
    constructor
    · intro u
      rw [countDefaults_append]
      by_cases hp : p.user = u ∧ p.isDefault = true
      · obtain ⟨hu, hd⟩ := hp
        subst hu
        have h0 : countDefaults db1 p.user = 0 :=
          countDefaults_zero p db1 (hprop hd) hz
        simp [countDefaults, h0, hd]
      · have h1 : countDefaults [p] u = 0 := by
          simp only [countDefaults, if_neg hp]
        rw [h1]
        have := hdef1 u
        omega
    · intro x
      rw [countPk_append]
      by_cases hx : p.pk = x
      · subst hx
        simp [countPk, hz]
      · have h1 : countPk [p] x = 0 := by
          simp [countPk, hx]
        rw [h1]
        have := hpk1 x
        omega

lemma savePaymentMethod_invariant (db : List PaymentMethodRec)
    (p : PaymentMethodRec) (h : pmInvariant db) :
    pmInvariant (savePaymentMethod db p) := by
  obtain ⟨hdef, hpk⟩ := h
  by_cases hd : p.isDefault = true
  · have hrw : savePaymentMethod db p =
        (if (clearOtherDefaults db p).any fun q => decide (q.pk = p.pk) then
          (clearOtherDefaults db p).map fun q => if q.pk = p.pk then p else q
        else clearOtherDefaults db p ++ [p]) := by
      unfold savePaymentMethod
      rw [if_pos hd]
    rw [hrw]
    exact upsert_invariant p (clearOtherDefaults db p)
      (fun u => le_trans (countDefaults_clear_le p db u) (hdef u))
      (fun x => by rw [countPk_clear]; exact hpk x)
      (fun _ => clear_default_pk p db)
  · have hrw : savePaymentMethod db p =
        (if db.any fun q => decide (q.pk = p.pk) then
          db.map fun q => if q.pk = p.pk then p else q
        else db ++ [p]) := by
      unfold savePaymentMethod
      rw [if_neg hd]
    rw [hrw]
    exact upsert_invariant p db hdef hpk (fun hc => absurd hc hd)

lemma pmInvariant_nil : pmInvariant [] :=
  ⟨fun _ => by simp [countDefaults], fun _ => by simp [countPk]⟩

lemma foldl_save_invariant (ops : List PaymentMethodRec) :
    ∀ db : List PaymentMethodRec, pmInvariant db →
      pmInvariant (ops.foldl savePaymentMethod db) := by
  induction ops with
  | nil => intro db h; exact h
  | cons p t ih =>
    intro db h
    exact ih (savePaymentMethod db p) (savePaymentMethod_invariant db p h)

/-- C9: starting from an empty table, after any sequence of
`PaymentMethod.save` operations every user has at most one default method;
and in the claim's concrete scenario — method A (pk 1) created as default,
method B (pk 2) created non-default, then B saved as default — the final
table holds A with a cleared default flag and B as the single default. -/
theorem payment_method_single_default :
    (∀ (ops : List PaymentMethodRec) (u : ℕ),
      countDefaults (ops.foldl savePaymentMethod []) u ≤ 1) ∧
    ([⟨1, 7, true⟩, ⟨2, 7, false⟩, ⟨2, 7, true⟩].foldl savePaymentMethod [] =
      [⟨1, 7, false⟩, ⟨2, 7, true⟩]) ∧
    countDefaults
      ([⟨1, 7, true⟩, ⟨2, 7, false⟩, ⟨2, 7, true⟩].foldl savePaymentMethod []) 7 = 1 := by
  refine ⟨fun ops u => (foldl_save_invariant ops [] pmInvariant_nil).1 u, ?_, ?_⟩ <;>
    decide

/-! ## Repayment.apply_payment (`payments/models.py`)

State of a `Repayment` row: amounts as exact rationals, status string, and
whether `paid_date` has been set. Python's `return False` is modelled as
`none` and `return remaining_amount` as `some remaining_amount`.
-/

/-- The fields of a `Repayment` row that `apply_payment` reads or writes. -/
structure RepaymentState where
  amount : ℚ
  lateFee : ℚ
  amountPaid : ℚ
  status : String
  paidDateSet : Bool
deriving DecidableEq, Repr

/-- The `outstanding_amount` property: `amount + late_fee - amount_paid`. -/
def outstandingAmount (r : RepaymentState) : ℚ :=
  r.amount + r.lateFee - r.amountPaid

/-- `Repayment.apply_payment`. -/
def applyPayment (r : RepaymentState) (amount : ℚ) : Option ℚ × RepaymentState :=
  if amount ≤ 0 then (none, r)
  else
    let remainingAmount := min amount (outstandingAmount r)
    let r1 := { r with amountPaid := r.amountPaid + remainingAmount }
    let r2 :=
      if r.amount + r.lateFee ≤ r1.amountPaid then
        { r1 with status := "paid", paidDateSet := true }
      else if 0 < r1.amountPaid then
        { r1 with status := "partial" }
      else r1
    (some remainingAmount, r2)

/-- C10: on a valid repayment row (positive amount due, nonnegative late fee
and amount already paid), `apply_payment` returns `False` and changes nothing
for a nonpositive amount; for a positive amount it returns the effective debit
`min(amount, outstanding_amount)`, and the resulting status is `paid` exactly
when the updated `amount_paid` reaches `amount + late_fee` (with `paid_date`
set exactly then), and `partial` exactly when the updated `amount_paid` is
strictly between 0 and `amount + late_fee`. -/
theorem apply_payment_caps_and_statuses (r : RepaymentState) (a : ℚ)
    (_hamt : 0 < r.amount) (_hfee : 0 ≤ r.lateFee) (hpaid : 0 ≤ r.amountPaid) :
    (a ≤ 0 → applyPayment r a = (none, r)) ∧
    (0 < a →
      (applyPayment r a).1 = some (min a (outstandingAmount r)) ∧
      (applyPayment r a).2.amountPaid = r.amountPaid + min a (outstandingAmount r) ∧
      ((applyPayment r a).2.status = "paid" ↔
        r.amount + r.lateFee ≤ (applyPayment r a).2.amountPaid) ∧
      ((applyPayment r a).2.paidDateSet = true ↔
        r.amount + r.lateFee ≤ (applyPayment r a).2.amountPaid ∨ r.paidDateSet = true) ∧
      ((applyPayment r a).2.status = "partial" ↔
        (0 < (applyPayment r a).2.amountPaid ∧
          (applyPayment r a).2.amountPaid < r.amount + r.lateFee))) := by
  constructor
  · intro ha
    simp [applyPayment, ha]
  · intro ha
    have hnotle : ¬ a ≤ 0 := not_le.mpr ha
    by_cases hpaidcond : r.amount + r.lateFee ≤ r.amountPaid + min a (outstandingAmount r)
    · refine ⟨by simp [applyPayment, hnotle], ?_, ?_, ?_, ?_⟩ <;>
        simp [applyPayment, hnotle, hpaidcond]
    · have hlt : r.amountPaid + min a (outstandingAmount r) < r.amount + r.lateFee :=
        lt_of_not_le hpaidcond
      have hposnew : 0 < r.amountPaid + min a (outstandingAmount r) := by
        rcases le_or_lt (outstandingAmount r) a with hc | hc
        · have : min a (outstandingAmount r) = outstandingAmount r := min_eq_right hc
          rw [this] at hlt
          unfold outstandingAmount at hlt
          linarith
        · have : min a (outstandingAmount r) = a := min_eq_left (le_of_lt hc)
          rw [this]
          linarith
      refine ⟨by simp [applyPayment, hnotle], ?_, ?_, ?_, ?_⟩ <;>
        (simp [applyPayment, hnotle, hpaidcond, hposnew]; try linarith)

/-- Witness for C10: a repayment of 40 against a pending row owing 100. -/
theorem apply_payment_caps_and_statuses_witness :
    ((40 : ℚ) ≤ 0 →
      applyPayment ⟨100, 0, 0, "pending", false⟩ 40 =
        (none, ⟨100, 0, 0, "pending", false⟩)) ∧
    ((0 : ℚ) < 40 →
      (applyPayment ⟨100, 0, 0, "pending", false⟩ 40).1 =
        some (min 40 (outstandingAmount ⟨100, 0, 0, "pending", false⟩)) ∧
      (applyPayment ⟨100, 0, 0, "pending", false⟩ 40).2.amountPaid =
        (0 : ℚ) + min 40 (outstandingAmount ⟨100, 0, 0, "pending", false⟩) ∧
      ((applyPayment ⟨100, 0, 0, "pending", false⟩ 40).2.status = "paid" ↔
        (100 : ℚ) + 0 ≤ (applyPayment ⟨100, 0, 0, "pending", false⟩ 40).2.amountPaid) ∧
      ((applyPayment ⟨100, 0, 0, "pending", false⟩ 40).2.paidDateSet = true ↔
        (100 : ℚ) + 0 ≤ (applyPayment ⟨100, 0, 0, "pending", false⟩ 40).2.amountPaid ∨
          false = true) ∧
      ((applyPayment ⟨100, 0, 0, "pending", false⟩ 40).2.status = "partial" ↔
        (0 < (applyPayment ⟨100, 0, 0, "pending", false⟩ 40).2.amountPaid ∧
          (applyPayment ⟨100, 0, 0, "pending", false⟩ 40).2.amountPaid < 100 + 0))) :=
  apply_payment_caps_and_statuses ⟨100, 0, 0, "pending", false⟩ 40 (by norm_num)
    (by norm_num) (by norm_num)

/-! ## LoanViewSet.make_payment (`loans/views.py`)

The view reads an optional amount from the request (Python falsiness makes a
missing, null or zero amount yield the required-amount error), rejects a
nonpositive amount, rejects any loan whose status differs from the literal
string `ACTIVE`, and otherwise records the repayment and calls
`loan.update_balance_after_payment(amount)`.
-/

/-- The status and outstanding balance of a `Loan` row as the payment view
sees them. -/
structure LoanState where
  status : String
  outstandingBalance : ℚ
deriving DecidableEq, Repr

/-- Modelled from the spec: `Loan.update_balance_after_payment` is called by
`LoanViewSet.make_payment` but defined nowhere in the sources; per the spec's
repayment-servicing rules, an amount exceeding the outstanding balance is
capped at the balance, the balance is decremented, and when it reaches zero or
below the loan status becomes `completed` with the balance clamped to exactly
0. -/
def updateBalanceAfterPayment (loan : LoanState) (amount : ℚ) : LoanState :=
  let effective := min amount loan.outstandingBalance
  let newBalance := loan.outstandingBalance - effective
  if newBalance ≤ 0 then { status := "completed", outstandingBalance := 0 }
  else { loan with outstandingBalance := newBalance }

/-- Responses of the `make-payment` action. -/
inductive PaymentResponse where
  | badRequest (error : String)
  | ok (remainingBalance : ℚ)
deriving DecidableEq, Repr

/-- `LoanViewSet.make_payment`: validation, the `ACTIVE` status gate, and the
balance update; returns the response and the resulting loan row. -/
def makePayment (loan : LoanState) (amount : Option ℚ) :
    PaymentResponse × LoanState :=
  match amount with
  | none => (.badRequest "Payment amount is required", loan)
  | some a =>
    if a = 0 then (.badRequest "Payment amount is required", loan)
    else if a ≤ 0 then (.badRequest "Invalid payment amount", loan)
    else if loan.status ≠ "ACTIVE" then
      (.badRequest "Cannot make payment on inactive loan", loan)
    else
      let loan1 := updateBalanceAfterPayment loan a
      (.ok loan1.outstandingBalance, loan1)

/-- C2: a loan in the canonical active status `active` (per
`Loan.STATUS_CHOICES`) with outstanding balance 100 rejects a payment of 50
with the 400-response `Cannot make payment on inactive loan` and is left
unchanged, because the gate compares against the literal `ACTIVE`; the
spec-modelled balance update that the gate blocks would have produced
balance 50, and with an overpayment of 150 balance 0 and status `completed`,
exactly as the claim demands. -/
theorem make_payment_rejects_canonical_active_loan :
    makePayment ⟨"active", 100⟩ (some 50) =
      (.badRequest "Cannot make payment on inactive loan", ⟨"active", 100⟩) ∧
    "active" ∈ loanStatusChoices ∧
    updateBalanceAfterPayment ⟨"active", 100⟩ 50 = ⟨"active", 50⟩ ∧
    updateBalanceAfterPayment ⟨"active", 100⟩ 150 = ⟨"completed", 0⟩ ∧
    makePayment ⟨"ACTIVE", 100⟩ (some 50) = (.ok 50, ⟨"ACTIVE", 50⟩) := by
  refine ⟨?_, by decide, ?_, ?_, ?_⟩ <;>
    (norm_num [makePayment, updateBalanceAfterPayment]; try decide)

/-- Supporting fact (spec-modelled): the balance update itself implements the
repayment arithmetic: a payment 0 < a ≤ X yields balance X − a (status
untouched when a < X), and a > X is capped at X, yielding balance exactly 0
and status `completed`. -/
theorem update_balance_after_payment_caps (loan : LoanState) (a : ℚ)
    (_ha : 0 < a) :
    (a ≤ loan.outstandingBalance →
      (updateBalanceAfterPayment loan a).outstandingBalance =
        loan.outstandingBalance - a) ∧
    (a < loan.outstandingBalance →
      (updateBalanceAfterPayment loan a).status = loan.status) ∧
    (loan.outstandingBalance < a →
      updateBalanceAfterPayment loan a = ⟨"completed", 0⟩) := by
  refine ⟨?_, ?_, ?_⟩
  · intro hle
    unfold updateBalanceAfterPayment
    rw [min_eq_left hle]
    by_cases hz : loan.outstandingBalance - a ≤ 0
    · rw [if_pos hz]
      have h0 : loan.outstandingBalance - a = 0 :=
        le_antisymm hz (by linarith)
      simp [h0]
    · rw [if_neg hz]
  · intro hlt
    unfold updateBalanceAfterPayment
    rw [min_eq_left (le_of_lt hlt), if_neg (by linarith : ¬loan.outstandingBalance - a ≤ 0)]
  · intro hgt
    unfold updateBalanceAfterPayment
    rw [min_eq_right (le_of_lt hgt)]
    simp

/-- Witness for the spec-modelled balance update at balance 100, payment 40. -/
theorem update_balance_after_payment_caps_witness :
    ((40 : ℚ) ≤ 100 →
      (updateBalanceAfterPayment ⟨"active", 100⟩ 40).outstandingBalance =
        100 - 40) ∧
    ((40 : ℚ) < 100 →
      (updateBalanceAfterPayment ⟨"active", 100⟩ 40).status = "active") ∧
    ((100 : ℚ) < 40 → updateBalanceAfterPayment ⟨"active", 100⟩ 40 = ⟨"completed", 0⟩) :=
  update_balance_after_payment_caps ⟨"active", 100⟩ 40 (by norm_num)

/-! ## PaystackWebhookView.post (`payments/webhooks.py`)

The webhook endpoint reads the `X-Paystack-Signature` header (the empty
string when absent is falsy), validates it against the hex HMAC-SHA512 of
the raw body under the configured secret, and only then parses and processes
the payload. The HMAC itself is a library call, modelled as an uninterpreted
function argument; the downstream processing (which may mutate state) is a
continuation argument, so the rejection theorem holds for every possible
downstream behaviour.
-/

/-- HTTP responses of the webhook view. -/
inductive HttpResponse where
  | ok (body : String)
  | badRequest (body : String)
deriving DecidableEq, Repr

/-- `PaystackWebhookHandler.validate_signature`: hex HMAC-SHA512 of the
payload under the secret key, compared (constant-time in the source) with the
received signature. -/
def validateSignature (hmacSha512Hex : String → String → String)
    (secretKey payload signature : String) : Bool :=
  hmacSha512Hex secretKey payload == signature

/-- `PaystackWebhookView.post` up to the signature check; `processWebhook`
stands for the parse-and-process continuation operating on the store `St`. -/
def paystackWebhookPost {St : Type} (hmacSha512Hex : String → String → String)
    (secretKey : String) (processWebhook : String → St → HttpResponse × St)
    (signature body : String) (st : St) : HttpResponse × St :=
  if signature = "" then (.badRequest "Missing signature", st)
  else if !validateSignature hmacSha512Hex secretKey body signature then
    (.badRequest "Invalid signature", st)
  else processWebhook body st

/-- C3: whenever the signature header is absent (empty) or differs from the
hex HMAC-SHA512 of the raw body under the secret, the webhook endpoint
answers with a 400 Bad Request and returns the store unchanged — no payment,
transaction or loan record is touched — whatever the downstream processing
would do. -/
theorem webhook_rejects_bad_signature {St : Type}
    (hmacSha512Hex : String → String → String) (secretKey : String)
    (processWebhook : String → St → HttpResponse × St)
    (signature body : String) (st : St)
    (h : signature = "" ∨ signature ≠ hmacSha512Hex secretKey body) :
    (paystackWebhookPost hmacSha512Hex secretKey processWebhook signature body
      st).2 = st ∧
    ∃ msg, (paystackWebhookPost hmacSha512Hex secretKey processWebhook
      signature body st).1 = HttpResponse.badRequest msg := by
  rcases h with h | h
  · subst h
    exact ⟨rfl, "Missing signature", rfl⟩
  · unfold paystackWebhookPost validateSignature
    by_cases hempty : signature = ""
    · rw [if_pos hempty]
      exact ⟨rfl, "Missing signature", rfl⟩
    · rw [if_neg hempty]
      have hbeq : (hmacSha512Hex secretKey body == signature) = false :=
        beq_false_of_ne (Ne.symm h)
      rw [hbeq]
      exact ⟨rfl, "Invalid signature", rfl⟩

/-- Witness for C3: a concrete store (a counter), a processing continuation
that would mutate it, and a signature that does not match the (stubbed) HMAC;
the state stays 0. -/
theorem webhook_rejects_bad_signature_witness :
    (paystackWebhookPost (fun _ _ => "aa") "sk"
      (fun _ n => (HttpResponse.ok "OK", n + 1)) "bb" "payload" (0 : ℕ)).2 = 0 ∧
    ∃ msg, (paystackWebhookPost (fun _ _ => "aa") "sk"
      (fun _ n => (HttpResponse.ok "OK", n + 1)) "bb" "payload" (0 : ℕ)).1 =
        HttpResponse.badRequest msg :=
  webhook_rejects_bad_signature (fun _ _ => "aa") "sk"
    (fun _ n => (HttpResponse.ok "OK", n + 1)) "bb" "payload" 0
    (Or.inr (by decide))

end Quickfund
